import Mathlib

/-!
Verification of the frame-driven interpolation engine of a small pygame UI
library (`ui_classes.py`): the goal-seeking value stepper of the progress-bar
widget (`Bar`), the multi-action sequencer (`ObjectAnimation`), the
size transition stepper (`Transition`), and their per-frame fan-outs.

Modelling conventions, mirroring the Python source:
* Python floats are modelled as exact rationals (`ℚ`); the source's exactness
  behaviour (landing exactly on a target) comes from direct assignment, not
  from float rounding, so this is faithful for the properties at issue.
* The process-wide frame counter (`Frame._frame`) is carried as a `frame`
  field of each model state; the host loop's `Display.tick_frame()` is the
  `tick` operation (frame + 1) and is performed before the per-frame fan-out.
* Python exceptions are modelled with `Except PyErr` / by an error value;
  `Except.error e` means the corresponding call raises.
* Python object references are modelled by indices into an explicit heap
  list where aliasing matters (`ObjectAnimation`'s target objects).
* Ghost fields (`procCount`, `cbCount`) count how often an instance was
  advanced / its completion callback invoked; they influence nothing.
-/

/-- Python `int(q)` applied to a float: truncation toward zero. -/
def pytrunc (q : ℚ) : ℤ := if 0 ≤ q then ⌊q⌋ else ⌈q⌉

/-- The common movement step of `Bar.process_bar_movement` (both edges):
`d_value = cur - target; if abs(d_value) < step_size: cur = target
elif cur < target: cur += step_size else: cur -= step_size`. -/
def moveToward (cur target ss : ℚ) : ℚ :=
  if |cur - target| < ss then target
  else if cur < target then cur + ss else cur - ss

/-- One entry of `Bar.moving_bars`: `[[goal_low, goal_high], set_bottom]`. -/
structure MGoal where
  gl : ℚ
  gh : ℚ
  bottom : Bool

/-- Configuration of one `Bar`: `value_range = (lo, hi)`, the class constant
`display_fps`, and the instance's `time_to_use`. -/
structure BarCfg where
  lo : ℚ
  hi : ℚ
  fps : ℚ
  ttu : ℚ

/-- State of a single `Bar` instance together with the globals it touches:
`display_range = [low, high]`, its `Bar.moving_bars` entry (the bar's key is
its `_bar_id`; with a single instance the dict is empty or holds exactly this
entry, hence an `Option`), `starting_frame`, and the global `Frame._frame`. -/
structure BarSt where
  low : ℚ
  high : ℚ
  goal : Option MGoal
  startF : ℤ
  frame : ℤ

/-- `value_range` clamp performed at the top of `Bar.set_value`:
`min(max(value, value_range[0]), value_range[1])`. -/
def clampQ (cfg : BarCfg) (v : ℚ) : ℚ := min (max v cfg.lo) cfg.hi

/-- `Bar.set_value(value, set_instant, set_bottom)` for a single instance.
`current_goal` is the pending goal pair if one exists, else `display_range`.
The top branch fires only when `self.value` (i.e. `display_range[1]`)
differs from the clamped value; the bottom branch compares
`display_range[0]`. A non-instant set stores the new goal pair under the
bar's key and resets `starting_frame`; an instant set writes the committed
edge directly (and touches nothing else). -/
def set_value (cfg : BarCfg) (v : ℚ) (instant bottom : Bool) (s : BarSt) : BarSt :=
  let sv := clampQ cfg v
  let cg : ℚ × ℚ :=
    match s.goal with
    | some g => (g.gl, g.gh)
    | none => (s.low, s.high)
  if bottom = false then
    if s.high ≠ sv then
      if instant = false then
        { s with goal := some ⟨cg.1, sv, false⟩, startF := s.frame }
      else
        { s with high := sv }
    else s
  else
    if s.low ≠ sv then
      if instant = false then
        { s with goal := some ⟨sv, cg.2, true⟩, startF := s.frame }
      else
        { s with low := sv }
    else s

/-- `Bar.modify_value(value, set_instant, set_bottom)`: adds the delta to the
pending goal's edge if the bar is moving, else to the committed edge, then
delegates to `set_value`. -/
def modify_value (cfg : BarCfg) (v : ℚ) (instant bottom : Bool) (s : BarSt) : BarSt :=
  match s.goal with
  | none =>
    if bottom = false then set_value cfg (s.high + v) instant bottom s
    else set_value cfg (s.low + v) instant bottom s
  | some g =>
    if bottom = false then set_value cfg (g.gh + v) instant bottom s
    else set_value cfg (g.gl + v) instant bottom s

/-- `Bar.process_bar_movement()` for a single instance. If the bar has a
pending entry: the target is the goal's high for a top move and the goal's
low for a bottom move; the entry is popped when `self.value`
(`display_range[1]`, always the top edge — also for bottom moves) equals the
target; otherwise the edited edge moves by
`step_size = Frame.get_delta(starting_frame) / display_fps * time_to_use`. -/
def process_bar_movement (cfg : BarCfg) (s : BarSt) : BarSt :=
  match s.goal with
  | none => s
  | some g =>
    let target := if g.bottom = false then g.gh else g.gl
    if s.high = target then { s with goal := none }
    else
      let ss : ℚ := ((s.frame - s.startF : ℤ) : ℚ) / cfg.fps * cfg.ttu
      if g.bottom = false then { s with high := moveToward s.high target ss }
      else { s with low := moveToward s.low target ss }

/-- `Display.tick_frame()`: the host loop advances the frame counter once per
rendered frame. -/
def tickB (s : BarSt) : BarSt := { s with frame := s.frame + 1 }

/-- One frame of the host render loop for a bar: `Display.tick_frame()`
followed by the fan-out calling `process_bar_movement`. -/
def cycleB (cfg : BarCfg) (s : BarSt) : BarSt := process_bar_movement cfg (tickB s)

/-- Calls a driver may interleave on a single bar: `set_value`,
`modify_value`, a `process_bar_movement` step, and a frame tick. -/
inductive BarOp where
  | set (v : ℚ) (instant bottom : Bool)
  | modify (v : ℚ) (instant bottom : Bool)
  | step
  | tick

/-- Applies one interleaved call to the bar state. -/
def applyBarOp (cfg : BarCfg) (op : BarOp) (s : BarSt) : BarSt :=
  match op with
  | .set v i b => set_value cfg v i b s
  | .modify v i b => modify_value cfg v i b s
  | .step => process_bar_movement cfg s
  | .tick => tickB s

/-- Runs a sequence of interleaved calls. -/
def runBarOps (cfg : BarCfg) (ops : List BarOp) (s : BarSt) : BarSt :=
  ops.foldl (fun s op => applyBarOp cfg op s) s

/-- Cumulative distance travelled after `k` post-`set_value` frames: the
step at elapsed frame `j` has magnitude `j * (time_to_use / display_fps)`,
so the total is `(time_to_use / display_fps) * k * (k+1) / 2`. -/
def Ssum (cfg : BarCfg) (k : ℕ) : ℚ := cfg.ttu / cfg.fps * k * (k + 1) / 2

/-- The inductive state invariant used for claim C1: both committed edges and
any pending goal components lie within `value_range`, and `starting_frame`
never exceeds the current frame. -/
def BarInv (cfg : BarCfg) (s : BarSt) : Prop :=
  cfg.lo ≤ s.low ∧ s.low ≤ cfg.hi ∧ cfg.lo ≤ s.high ∧ s.high ≤ cfg.hi ∧
  (∀ g : MGoal, s.goal = some g →
    cfg.lo ≤ g.gl ∧ g.gl ≤ cfg.hi ∧ cfg.lo ≤ g.gh ∧ g.gh ≤ cfg.hi) ∧
  s.startF ≤ s.frame

/-- State of one `Transition` instance (dataclass fields that the animation
engine touches, plus ghost counters). `current_size` holds integers after the
first process call (`int(...)` truncation); the initial `(0,0)` is integral,
so the sizes are carried as `ℤ`. `hasCb` records whether
`post_transition_call` is not `None`; `cbCount` (ghost) counts callback
invocations and `procCount` (ghost) counts `process_transition` calls. -/
structure TrSt where
  baseW : ℤ
  baseH : ℤ
  sizeW : ℤ
  sizeH : ℤ
  x0 : ℤ
  x1 : ℤ
  y0 : ℤ
  y1 : ℤ
  ttu : ℚ
  fps : ℚ
  startF : ℤ
  hasCb : Bool
  cbCount : ℕ
  procCount : ℕ

/-- `Transition.process_transition()` at global frame `frame`. Computes
`transition_fraction = (Frame.get() - starting_frame) / time_to_use *
display_fps`, clamps `int(span * fraction)` into `[base, span]` per axis, and
reports completion (both axes at full span), in which case the source removes
the transition from `Transition.running_animations` and invokes the
post-transition callback. Returns the updated instance and the completion
flag; registry removal is done by the caller that owns the registry. -/
def process_transition (frame : ℤ) (t : TrSt) : TrSt × Bool :=
  let frac : ℚ := ((frame - t.startF : ℤ) : ℚ) / t.ttu * t.fps
  let spanW := t.x1 - t.x0
  let spanH := t.y1 - t.y0
  let w := min (max t.baseW (pytrunc ((spanW : ℚ) * frac))) spanW
  let h := min (max t.baseH (pytrunc ((spanH : ℚ) * frac))) spanH
  let done : Bool := w = spanW ∧ h = spanH
  let t' : TrSt :=
    { t with sizeW := w, sizeH := h, procCount := t.procCount + 1,
             cbCount := t.cbCount + (if done ∧ t.hasCb then 1 else 0) }
  (t', done)

/-- A single started `Transition` plus the global frame: `running` is its
membership in `Transition.running_animations`. -/
structure TrLoop where
  tr : TrSt
  frame : ℤ
  running : Bool

/-- One frame of the host loop for a single transition:
`Display.tick_frame()` then `Transition.process_running_transitions()`, which
calls `process_transition` iff the transition is registered; completion
deregisters it. -/
def trTick (L : TrLoop) : TrLoop :=
  let f := L.frame + 1
  if L.running then
    let p := process_transition f L.tr
    ⟨p.1, f, !p.2⟩
  else ⟨L.tr, f, L.running⟩

/-- `Transition.running_animations` with several transitions: the instances
live in `states` (indexed by identity) and the registry holds indices in
registration order; `frame` is the global frame counter. -/
structure TrSys where
  states : List TrSt
  registry : List ℕ
  frame : ℤ

/-- Processes the registered transition with identity `i`:
`process_transition` on its state; on completion the source executes
`Transition.running_animations.remove(self)`, which deletes the first
occurrence. -/
def processIdxTr (i : ℕ) (sys : TrSys) : TrSys :=
  match sys.states.get? i with
  | none => sys
  | some t =>
    let p := process_transition sys.frame t
    { sys with states := sys.states.set i p.1,
               registry := if p.2 then sys.registry.erase i else sys.registry }

/-- The loop body of `Transition.process_running_transitions`:
`for transition in cls.running_animations: transition.process_transition()`.
Python's list iterator reads index `i` of the (possibly mutated) live list and
stops as soon as `i` reaches the current length, so a removal by the body
shifts later elements one slot down under the iterator. The fuel is the
initial registry length, which bounds the number of iterations because the
registry never grows during the loop. -/
def fanOutTrAux : ℕ → ℕ → TrSys → TrSys
  | 0, _, sys => sys
  | fuel + 1, i, sys =>
    if h : i < sys.registry.length then
      fanOutTrAux fuel (i + 1) (processIdxTr (sys.registry.get ⟨i, h⟩) sys)
    else sys

/-- `Transition.process_running_transitions()`: iterates the live registry. -/
def process_running_transitions (sys : TrSys) : TrSys :=
  fanOutTrAux sys.registry.length 0 sys

/-- `Transition.start_transition()`: merges the callback kwargs (not
modelled; only the presence of a callback matters here), sets
`starting_frame = Frame.get()` and executes
`Transition.running_animations.append(self)` — an unconditional append. -/
def start_transition (i : ℕ) (sys : TrSys) : TrSys :=
  match sys.states.get? i with
  | none => sys
  | some t =>
    { sys with states := sys.states.set i { t with startF := sys.frame },
               registry := sys.registry ++ [i] }

/-- The registry effect of `ObjectAnimation.start()`:
`if self not in ObjectAnimation.running_animations:
running_animations.append(self)` (elements stand for instances; plain-class
identity equality). -/
def oaStartReg (i : ℕ) (l : List ℕ) : List ℕ :=
  if i ∈ l then l else l ++ [i]

/-- The Python exceptions the animation engine can raise: `IndexError` from
a failed list lookup, and `NameError` from the unresolvable bare name
`Action` — `Action` is only defined as the nested class
`ObjectAnimation.Action`, and Python class bodies are not enclosing scopes
for the methods defined in them, so the references `Action.execute` (in
`process_animation`) and `Action.SCALE` etc. (inside `execute` itself)
cannot be resolved at run time. -/
inductive PyErr where
  | indexError
  | nameError
deriving DecidableEq

/-- Geometry of one animated target object (the fields of `Rect` that
`ObjectAnimation.Action.execute` mutates: `x`, `y`, `width`, `height`,
`corner_radius_all`). -/
structure Geom where
  x : ℤ
  y : ℤ
  width : ℤ
  height : ℤ
  cornerRadius : ℤ
deriving DecidableEq

/-- The `ObjectAnimation.Action` kinds. -/
inductive AKind where
  | scale
  | scaleTo
  | move
  | moveTo
  | chRadius
  | chRadiusTo
  | changeObject
deriving DecidableEq

/-- The kwargs dict an action may carry (`None` = key absent). -/
structure Kw where
  time : Option ℤ := none
  width : Option ℤ := none
  height : Option ℤ := none
  x : Option ℤ := none
  y : Option ℤ := none
  radius : Option ℤ := none
  index : Option ℤ := none

/-- `ObjectAnimation.Action.execute(objects, index, start_time, action,
**kwargs)` as it actually runs (when invoked through its qualified name).
`objects` is the animation's reference list (indices into `heap`, the store
of mutable target objects); `cur_object = objects[index]` is evaluated
first and can raise `IndexError`. A `None` action returns
`(wait_time = 0, object_index = None)` without touching anything. For every
non-`None` action the method reaches `if action == Action.SCALE:` — a bare
reference to the name `Action`, which is unresolvable from method scope —
and raises `NameError`; all the per-kind mutation branches below that line
are unreachable, so no call ever mutates a target object. -/
def action_execute (heap : List Geom) (objs : List ℕ) (index : ℕ) (startTime frame : ℤ)
    (action : Option AKind) (kw : Kw) : Except PyErr (List Geom × ℤ × Option ℕ) :=
  match objs.get? index with
  | none => .error .indexError
  | some r =>
    match heap.get? r with
    | none => .error .indexError
    | some _ =>
      match action with
      | none => .ok (heap, 0, none)
      | some _ => .error .nameError

/-- State of one `ObjectAnimation` plus the globals it touches. `objs` is
`animation_objects` (a list of references into `heap`), `startObjs` is
`_start_object_setting = animation_objects.copy()` — a shallow copy: the same
references, captured at construction. `running` is membership in
`ObjectAnimation.running_animations`; `frame` is `Frame._frame`. -/
structure OASt where
  seq : List (Option AKind × Kw)
  objs : List ℕ
  startObjs : List ℕ
  heap : List Geom
  actionIndex : ℕ
  objectIndex : ℕ
  startActionFrame : ℤ
  nextFrame : ℤ
  running : Bool
  frame : ℤ

/-- `ObjectAnimation.process_animation()`. Looks up the current action —
`self.action_sequence[self.action_index]` raises `IndexError` past the end
of the list (in particular on the very first call with an empty list) — and
then immediately raises `NameError`: the next statement calls
`Action.execute(...)` through the bare name `Action`, which is not
resolvable from method scope. Everything after that line (adopting a
returned object index, the frame bookkeeping, the `action_index` increment
and terminal check, and the zero-wait self-recursion) is unreachable, so
the sequencer neither mutates targets nor ever deregisters itself from a
process call. The `fuel` argument bounds the source's (unreachable)
self-recursion and does not influence the result. -/
def process_animation (fuel : ℕ) (s : OASt) : Except PyErr OASt :=
  match s.seq.get? s.actionIndex with
  | none => .error .indexError
  | some _ => .error .nameError

/-- `ObjectAnimation.reset()`: `stop()` (deregisters), zeroes the indices and
frame bookkeeping, and sets `animation_objects =
_start_object_setting.copy()` — again a shallow copy, so `objs` is restored
to the captured reference list while the heap (the objects' geometry) keeps
whatever mutations the actions performed. -/
def oa_reset (s : OASt) : OASt :=
  { s with running := false, actionIndex := 0, objectIndex := 0,
           startActionFrame := 0, nextFrame := 0, objs := s.startObjs }

/-- One entry of `Bar.save_bars`: the per-instance state of a constructed
`Bar`. `barId` models the attribute `self._bar_id`: in the source,
`_bar_id = bar_id_counter` is an unannotated assignment in the dataclass
body, so it is a plain class attribute evaluated once at class-definition
time (when `bar_id_counter` is `0`) and `__post_init__` increments
`Bar.bar_id_counter` without ever assigning `self._bar_id`; every instance
therefore reads `0`. `procCount` (ghost) counts `process_bar_movement`
calls on this instance. -/
structure BarObj where
  barId : ℕ
  lo : ℚ
  hi : ℚ
  low : ℚ
  high : ℚ
  ttu : ℚ
  startF : ℤ
  procCount : ℕ

/-- The `Bar` class state: `save_bars` in construction order,
`bar_id_counter`, the insertion-ordered dict `moving_bars`, the class
constant `display_fps` and the global frame counter. -/
structure BarSys where
  bars : List BarObj
  counter : ℕ
  movingBars : List (ℕ × MGoal)
  fps : ℚ
  frame : ℤ

/-- Python dict lookup `d[k]` / `k in d.keys()` on the insertion-ordered
association list. -/
def dictLookup (k : ℕ) (d : List (ℕ × MGoal)) : Option MGoal :=
  (d.find? (fun p => p.1 = k)).map Prod.snd

/-- Python `d.update({k: v})`: replaces the value in place if the key exists
(insertion order kept), else appends the new binding. -/
def dictUpdate (k : ℕ) (v : MGoal) (d : List (ℕ × MGoal)) : List (ℕ × MGoal) :=
  if (d.find? (fun p => p.1 = k)).isSome then
    d.map (fun p => if p.1 = k then (k, v) else p)
  else d ++ [(k, v)]

/-- Python `d.pop(k)`: removes the binding of `k`. -/
def dictPop (k : ℕ) (d : List (ℕ × MGoal)) : List (ℕ × MGoal) :=
  d.filter (fun p => p.1 ≠ k)

/-- Constructor arguments of a `Bar` that matter to the engine. -/
structure BarParams where
  lo : ℚ
  hi : ℚ
  low : ℚ
  high : ℚ
  ttu : ℚ

/-- `Bar(...)` construction (`__post_init__`): increments
`Bar.bar_id_counter` and appends the instance to `Bar.save_bars`. The
instance's `barId` is `0` (see `BarObj.barId`); `starting_frame`'s dataclass
default `Frame.get()` was evaluated at class-definition time, i.e. `0`. -/
def mkBar (p : BarParams) (sys : BarSys) : BarSys :=
  { sys with counter := sys.counter + 1,
             bars := sys.bars ++
               [{ barId := 0, lo := p.lo, hi := p.hi, low := p.low, high := p.high,
                  ttu := p.ttu, startF := 0, procCount := 0 }] }

/-- Constructs a list of bars in order. -/
def mkBars (ps : List BarParams) (sys : BarSys) : BarSys :=
  ps.foldl (fun s p => mkBar p s) sys

/-- `Bar.set_value` on the system: the method of instance `i` (an index into
`save_bars`), which keys `moving_bars` by `self._bar_id`. Mirrors
`set_value` above, acting on the shared dict. -/
def set_value_sys (i : ℕ) (v : ℚ) (instant bottom : Bool) (sys : BarSys) : BarSys :=
  match sys.bars.get? i with
  | none => sys
  | some b =>
    let sv := min (max v b.lo) b.hi
    let cg : ℚ × ℚ :=
      match dictLookup b.barId sys.movingBars with
      | some g => (g.gl, g.gh)
      | none => (b.low, b.high)
    if bottom = false then
      if b.high ≠ sv then
        if instant = false then
          { sys with movingBars := dictUpdate b.barId ⟨cg.1, sv, false⟩ sys.movingBars,
                     bars := sys.bars.set i { b with startF := sys.frame } }
        else { sys with bars := sys.bars.set i { b with high := sv } }
      else sys
    else
      if b.low ≠ sv then
        if instant = false then
          { sys with movingBars := dictUpdate b.barId ⟨sv, cg.2, true⟩ sys.movingBars,
                     bars := sys.bars.set i { b with startF := sys.frame } }
        else { sys with bars := sys.bars.set i { b with low := sv } }
      else sys

/-- `Bar.process_bar_movement` on the system: the method of instance `i`,
keyed by `self._bar_id` into the shared dict (see `process_bar_movement` for
the single-instance form). Ghost: bumps the instance's `procCount`. -/
def process_bar_movement_sys (i : ℕ) (sys : BarSys) : BarSys :=
  match sys.bars.get? i with
  | none => sys
  | some b0 =>
    let b := { b0 with procCount := b0.procCount + 1 }
    match dictLookup b.barId sys.movingBars with
    | none => { sys with bars := sys.bars.set i b }
    | some g =>
      let target := if g.bottom = false then g.gh else g.gl
      if b.high = target then
        { sys with bars := sys.bars.set i b,
                   movingBars := dictPop b.barId sys.movingBars }
      else
        let ss : ℚ := ((sys.frame - b.startF : ℤ) : ℚ) / sys.fps * b.ttu
        let b := if g.bottom = false then { b with high := moveToward b.high target ss }
                 else { b with low := moveToward b.low target ss }
        { sys with bars := sys.bars.set i b }

/-- `Bar.process_all_bar_movement()`: snapshots the dict keys
(`moving_bars_ids = list(cls.moving_bars.keys())`) and then calls
`Bar.save_bars[bar_id].process_bar_movement()` for each snapshotted id. -/
def process_all_bar_movement (sys : BarSys) : BarSys :=
  (sys.movingBars.map Prod.fst).foldl (fun s k => process_bar_movement_sys k s) sys

/-- Config of the bar used for the C1 counterexample: `value_range (0, 100)`,
`display_fps 60`, default `time_to_use 3.0`. -/
def cfgC1 : BarCfg := ⟨0, 100, 60, 3⟩

/-- Freshly constructed bar: `display_range = list(value_range)`, no pending
goal, frame 0. -/
def sC1 : BarSt := ⟨0, 100, none, 0, 0⟩

/-- Two instant sets: top edge to 30, then bottom edge to 50. -/
def opsC1 : List BarOp := [.set 30 true false, .set 50 true true]

/-- Config used for the C2/C4/C5 scenarios: `value_range (0, 100)`,
`display_fps 60`, `time_to_use 60.0` (so the step at elapsed frame `j` has
magnitude `j`). -/
def cfgC2 : BarCfg := ⟨0, 100, 60, 60⟩

/-- Freshly constructed bar for the C2 scenario. -/
def sC2init : BarSt := ⟨0, 100, none, 0, 0⟩

/-- Bar right after a non-instant `set_value(90)` at frame 0: pending goal
`[0, 90]` for the top edge, committed `display_range = [0, 100]`. -/
def sC2 : BarSt := set_value cfgC2 90 false false sC2init

/-- C4 scenario: non-instant `set_value(90)`, two animation frames, then a
second non-instant `set_value(97)` (whose clamped target equals the
then-committed top value 97), then three more frames. -/
def opsC4 : List BarOp :=
  [.set 90 false false, .tick, .step, .tick, .step, .set 97 false false,
   .tick, .step, .tick, .step, .tick, .step]

/-- C5 scenario: non-instant `set_value(50)` immediately followed by an
instant `set_value(80)` on the same (top) edge. -/
def opsC5 : List BarOp := [.set 50 false false, .set 80 true false]

/-- The C3 transition: `base_size (0,0)`, `x_range (0,200)`, `y_range
(0,100)`, `time_to_use 2`, `display_fps 60`, a completion callback, started
at frame 0. -/
def trC3 : TrSt := ⟨0, 0, 0, 0, 0, 200, 0, 100, 2, 60, 0, true, 0, 0⟩

/-- The started C3 transition, registered, at global frame 0. -/
def loopC3 : TrLoop := ⟨trC3, 0, true⟩

/-- One target object at the origin with zero extent. -/
def geomC6 : Geom := ⟨0, 0, 0, 0, 0⟩

/-- C6 animation: a single `MOVE{x: 7, time: 5}` action on one target,
started (registered) at frame 0. -/
def oaC6 : OASt :=
  ⟨[(some .move, { x := some 7, time := some 5 })], [0], [0], [geomC6],
   0, 0, 0, 0, true, 0⟩

/-- C7 animation: an empty action list, one target, registered, frame 0. -/
def oaC7 : OASt := ⟨[], [0], [0], [geomC6], 0, 0, 0, 0, true, 0⟩

/-- A transition that is far from completion at frame 1: `time_to_use 600`,
spans `(200, 100)`, started at frame 1. -/
def trC8 : TrSt := ⟨0, 0, 0, 0, 0, 200, 0, 100, 600, 60, 1, false, 0, 0⟩

/-- System with the single unstarted C8 transition at global frame 1. -/
def trSysC8 : TrSys := ⟨[trC8], [], 1⟩

/-- Two transitions that both complete on their next process call (startF 0,
`time_to_use 2`, fps 60, observed at frame 1). -/
def trC9a : TrSt := ⟨0, 0, 0, 0, 0, 200, 0, 100, 2, 60, 0, false, 0, 0⟩

/-- Companion transition for C9 with different spans, also completion-ready. -/
def trC9b : TrSt := ⟨0, 0, 0, 0, 0, 300, 0, 50, 2, 60, 0, false, 0, 0⟩

/-- System where both C9 transitions are registered, at global frame 1. -/
def trSysC9 : TrSys := ⟨[trC9a, trC9b], [0, 1], 1⟩

/-- The pristine `Bar` class state: no instances, counter 0, empty
`moving_bars`, `display_fps 60`, frame 0. -/
def barSysEmpty : BarSys := ⟨[], 0, [], 60, 0⟩

/-- Two bars with different value ranges, constructed in order. -/
def psC10 : List BarParams := [⟨0, 100, 0, 100, 3⟩, ⟨0, 1000, 0, 1000, 3⟩]

/-- The system after constructing the two C10 bars. -/
def sysC10 : BarSys := mkBars psC10 barSysEmpty

/-- The C10 system after a non-instant `set_value(500)` on the second bar. -/
def wsysC10 : BarSys := set_value_sys 1 500 false false sysC10

theorem clampQ_mem (cfg : BarCfg) (hlh : cfg.lo ≤ cfg.hi) (v : ℚ) :
    cfg.lo ≤ clampQ cfg v ∧ clampQ cfg v ≤ cfg.hi := by
  unfold clampQ
  exact ⟨le_min (le_max_right _ _) hlh, min_le_right _ _⟩

theorem moveToward_mem {lo hi cur t ss : ℚ} (hc1 : lo ≤ cur) (hc2 : cur ≤ hi)
    (ht1 : lo ≤ t) (ht2 : t ≤ hi) (hss : 0 ≤ ss) :
    lo ≤ moveToward cur t ss ∧ moveToward cur t ss ≤ hi := by
  unfold moveToward
  split_ifs with h1 h2
  · exact ⟨ht1, ht2⟩
  · have habs : ss ≤ t - cur := by
      have h3 := not_lt.mp h1
      rwa [abs_of_neg (by linarith : cur - t < 0), neg_sub] at h3
    constructor <;> linarith
  · have hle : t ≤ cur := not_lt.mp h2
    have habs : ss ≤ cur - t := by
      have h3 := not_lt.mp h1
      rwa [abs_of_nonneg (by linarith : (0:ℚ) ≤ cur - t)] at h3
    constructor <;> linarith

theorem moveToward_closer {cur t ss : ℚ} (hss : 0 < ss) (hne : cur ≠ t) :
    |moveToward cur t ss - t| < |cur - t| := by
  unfold moveToward
  split_ifs with h1 h2
  · simpa using abs_pos.mpr (sub_ne_zero.mpr hne)
  · have habs : ss ≤ t - cur := by
      have h3 := not_lt.mp h1
      rwa [abs_of_neg (by linarith : cur - t < 0), neg_sub] at h3
    rw [abs_of_nonpos (by linarith : cur + ss - t ≤ 0),
        abs_of_neg (by linarith : cur - t < 0)]
    linarith
  · have hlt : t < cur := lt_of_le_of_ne (not_lt.mp h2) (Ne.symm hne)
    have habs : ss ≤ cur - t := by
      have h3 := not_lt.mp h1
      rwa [abs_of_nonneg (by linarith : (0:ℚ) ≤ cur - t)] at h3
    rw [abs_of_nonneg (by linarith : (0:ℚ) ≤ cur - ss - t),
        abs_of_nonneg (by linarith : (0:ℚ) ≤ cur - t)]
    linarith

theorem barInv_set_value (cfg : BarCfg) (hlh : cfg.lo ≤ cfg.hi) (v : ℚ) (i b : Bool)
    (s : BarSt) (h : BarInv cfg s) : BarInv cfg (set_value cfg v i b s) := by
  obtain ⟨slow, shigh, sgoal, sf, sfr⟩ := s
  obtain ⟨hl1, hl2, hh1, hh2, hg, hf⟩ := h
  obtain ⟨hcv1, hcv2⟩ := clampQ_mem cfg hlh v
  cases sgoal with
  | none =>
    simp only [set_value, BarInv]
    split_ifs <;>
      refine ⟨?_, ?_, ?_, ?_, ?_, ?_⟩ <;>
        first
          | exact hl1 | exact hl2 | exact hh1 | exact hh2
          | exact hcv1 | exact hcv2 | exact hf | exact le_refl _
          | (intro g hgeq; simp only [Option.some.injEq] at hgeq; subst hgeq
             first
               | exact ⟨hl1, hl2, hcv1, hcv2⟩
               | exact ⟨hcv1, hcv2, hh1, hh2⟩)
          | (intro g hgeq; simp at hgeq)
  | some g0 =>
    obtain ⟨hgl1, hgl2, hgh1, hgh2⟩ := hg g0 rfl
    simp only [set_value, BarInv]
    split_ifs <;>
      refine ⟨?_, ?_, ?_, ?_, ?_, ?_⟩ <;>
        first
          | exact hl1 | exact hl2 | exact hh1 | exact hh2
          | exact hcv1 | exact hcv2 | exact hf | exact le_refl _
          | (intro g hgeq; simp only [Option.some.injEq] at hgeq; subst hgeq
             first
               | exact ⟨hgl1, hgl2, hcv1, hcv2⟩
               | exact ⟨hcv1, hcv2, hgh1, hgh2⟩
               | exact ⟨hgl1, hgl2, hgh1, hgh2⟩)

theorem barInv_modify_value (cfg : BarCfg) (hlh : cfg.lo ≤ cfg.hi) (v : ℚ) (i b : Bool)
    (s : BarSt) (h : BarInv cfg s) : BarInv cfg (modify_value cfg v i b s) := by
  unfold modify_value
  split <;> split_ifs <;> exact barInv_set_value cfg hlh _ _ _ s h

theorem barInv_step (cfg : BarCfg) (hlh : cfg.lo ≤ cfg.hi) (hfps : 0 < cfg.fps)
    (httu : 0 ≤ cfg.ttu) (s : BarSt) (h : BarInv cfg s) :
    BarInv cfg (process_bar_movement cfg s) := by
  obtain ⟨slow, shigh, sgoal, sf, sfr⟩ := s
  obtain ⟨hl1, hl2, hh1, hh2, hg, hf⟩ := h
  dsimp only at hl1 hl2 hh1 hh2 hg hf
  cases sgoal with
  | none => exact ⟨hl1, hl2, hh1, hh2, hg, hf⟩
  | some g0 =>
    obtain ⟨hgl1, hgl2, hgh1, hgh2⟩ := hg g0 rfl
    have hss : (0:ℚ) ≤ ((sfr:ℚ) - (sf:ℚ)) / cfg.fps * cfg.ttu := by
      apply mul_nonneg _ httu
      apply div_nonneg _ (le_of_lt hfps)
      have h0 : (sf:ℚ) ≤ (sfr:ℚ) := by exact_mod_cast hf
      linarith
    obtain ⟨ggl, ggh, gb⟩ := g0
    dsimp only at hgl1 hgl2 hgh1 hgh2
    cases gb
    · simp only [process_bar_movement, BarInv]
      norm_num
      split_ifs with hpop
      · exact ⟨hl1, hl2, hh1, hh2, fun g hgeq => absurd hgeq (by simp), hf⟩
      · refine ⟨hl1, hl2, (moveToward_mem hh1 hh2 hgh1 hgh2 hss).1,
          (moveToward_mem hh1 hh2 hgh1 hgh2 hss).2, ?_, hf⟩
        intro g hgeq
        simp only [Option.some.injEq] at hgeq
        subst hgeq
        exact ⟨hgl1, hgl2, hgh1, hgh2⟩
    · simp only [process_bar_movement, BarInv]
      norm_num
      split_ifs with hpop
      · exact ⟨hl1, hl2, hh1, hh2, fun g hgeq => absurd hgeq (by simp), hf⟩
      · refine ⟨(moveToward_mem hl1 hl2 hgl1 hgl2 hss).1,
          (moveToward_mem hl1 hl2 hgl1 hgl2 hss).2, hh1, hh2, ?_, hf⟩
        intro g hgeq
        simp only [Option.some.injEq] at hgeq
        subst hgeq
        exact ⟨hgl1, hgl2, hgh1, hgh2⟩

theorem barInv_tick (cfg : BarCfg) (s : BarSt) (h : BarInv cfg s) : BarInv cfg (tickB s) := by
  obtain ⟨hl1, hl2, hh1, hh2, hg, hf⟩ := h
  refine ⟨hl1, hl2, hh1, hh2, hg, ?_⟩
  simp only [tickB]
  omega

theorem barInv_run (cfg : BarCfg) (hlh : cfg.lo ≤ cfg.hi) (hfps : 0 < cfg.fps)
    (httu : 0 ≤ cfg.ttu) (ops : List BarOp) (s : BarSt) (h : BarInv cfg s) :
    BarInv cfg (runBarOps cfg ops s) := by
  induction ops generalizing s with
  | nil => exact h
  | cons op ops ih =>
    refine ih _ ?_
    cases op with
    | set v i b => exact barInv_set_value cfg hlh v i b s h
    | modify v i b => exact barInv_modify_value cfg hlh v i b s h
    | step => exact barInv_step cfg hlh hfps httu s h
    | tick => exact barInv_tick cfg s h

theorem Ssum_zero (cfg : BarCfg) : Ssum cfg 0 = 0 := by
  simp [Ssum]

theorem Ssum_succ (cfg : BarCfg) (k : ℕ) :
    Ssum cfg (k + 1) = Ssum cfg k + cfg.ttu / cfg.fps * ((k : ℚ) + 1) := by
  unfold Ssum
  push_cast
  ring

theorem moveToward_self {t ss : ℚ} (hss : 0 ≤ ss) : moveToward t t ss = t := by
  unfold moveToward
  split_ifs with h1 h2
  · rfl
  · exact absurd h2 (lt_irrefl t)
  · simp only [sub_self, abs_zero, not_lt] at h1
    have hz : ss = 0 := le_antisymm h1 hss
    rw [hz, sub_zero]

theorem moveToward_no_land (v t u d0 S step : ℚ)
    (hu : u = 1 ∨ u = -1) (ht : t = v + u * d0) (hd0 : 0 < d0)
    (hstep : 0 < step) (hnl : S + step < d0) :
    moveToward (v + u * S) t step = v + u * (S + step) := by
  rcases hu with rfl | rfl
  · have h1 : ¬ (|v + 1 * S - t| < step) := by
      have e1 : v + 1 * S - t = -(d0 - S) := by rw [ht]; ring
      rw [e1, abs_neg, abs_of_nonneg (by linarith)]
      linarith
    have h2 : v + 1 * S < t := by rw [ht]; linarith
    rw [moveToward, if_neg h1, if_pos h2]
    ring
  · have h1 : ¬ (|v + -1 * S - t| < step) := by
      have e1 : v + -1 * S - t = d0 - S := by rw [ht]; ring
      rw [e1, abs_of_nonneg (by linarith)]
      linarith
    have h2 : ¬ (v + -1 * S < t) := by
      apply not_lt.mpr
      rw [ht]
      linarith
    rw [moveToward, if_neg h1, if_neg h2]
    ring

theorem moveToward_land (v t u d0 S step : ℚ)
    (hu : u = 1 ∨ u = -1) (ht : t = v + u * d0) (hd0 : 0 < d0)
    (hS : S < d0) (hstep : 0 < step) (hland : d0 ≤ S + step) :
    moveToward (v + u * S) t step = t := by
  rcases hu with rfl | rfl
  · have e1 : v + 1 * S - t = -(d0 - S) := by rw [ht]; ring
    by_cases hc : |v + 1 * S - t| < step
    · rw [moveToward, if_pos hc]
    · have hc2 : step ≤ d0 - S := by
        have h3 := not_lt.mp hc
        rwa [e1, abs_neg, abs_of_nonneg (by linarith)] at h3
      have hEq : d0 = S + step := le_antisymm hland (by linarith)
      have h2 : v + 1 * S < t := by rw [ht]; linarith
      rw [moveToward, if_neg hc, if_pos h2, ht, hEq]
      ring
  · have e1 : v + -1 * S - t = d0 - S := by rw [ht]; ring
    by_cases hc : |v + -1 * S - t| < step
    · rw [moveToward, if_pos hc]
    · have hc2 : step ≤ d0 - S := by
        have h3 := not_lt.mp hc
        rwa [e1, abs_of_nonneg (by linarith)] at h3
      have hEq : d0 = S + step := le_antisymm hland (by linarith)
      have h2 : ¬ (v + -1 * S < t) := by
        apply not_lt.mpr
        rw [ht]
        linarith
      rw [moveToward, if_neg hc, if_neg h2, ht, hEq]
      ring

theorem cycleB_idle (cfg : BarCfg) (lo0 hi0 : ℚ) (f0 f : ℤ) :
    cycleB cfg ⟨lo0, hi0, none, f0, f⟩ = ⟨lo0, hi0, none, f0, f + 1⟩ := rfl

theorem cycleB_idle_iter (cfg : BarCfg) (lo0 hi0 : ℚ) (f0 f : ℤ) (k : ℕ) :
    (cycleB cfg)^[k] ⟨lo0, hi0, none, f0, f⟩ = ⟨lo0, hi0, none, f0, f + k⟩ := by
  induction k with
  | zero => simp
  | succ k ih =>
    rw [Function.iterate_succ_apply', ih, cycleB_idle]
    simp only [BarSt.mk.injEq, true_and]
    push_cast
    ring

theorem cycleB_pop (cfg : BarCfg) (s : BarSt) (g : MGoal) (hg : s.goal = some g)
    (hpop : s.high = (if g.bottom = false then g.gh else g.gl)) :
    cycleB cfg s = { s with goal := none, frame := s.frame + 1 } := by
  unfold cycleB tickB process_bar_movement
  rw [hg]
  simp only [← hpop, eq_self_iff_true, if_true]

theorem cycleB_active_top (cfg : BarCfg) (hfps : 0 < cfg.fps) (lo0 x gl t : ℚ)
    (f0 : ℤ) (j : ℕ) (hne : x ≠ t) :
    cycleB cfg ⟨lo0, x, some ⟨gl, t, false⟩, f0, f0 + (j : ℤ)⟩ =
      ⟨lo0, moveToward x t (cfg.ttu / cfg.fps * ((j : ℚ) + 1)), some ⟨gl, t, false⟩, f0,
        f0 + ((j : ℕ) + 1 : ℕ)⟩ := by
  have hss : ((f0 + (j : ℤ) + 1 - f0 : ℤ) : ℚ) / cfg.fps * cfg.ttu
      = cfg.ttu / cfg.fps * ((j : ℚ) + 1) := by
    push_cast
    field_simp
    ring
  unfold cycleB tickB process_bar_movement
  simp only [eq_self_iff_true, if_true, if_neg hne]
  simp only [BarSt.mk.injEq, true_and]
  refine ⟨?_, ?_⟩
  · rw [hss]
  · push_cast
    ring

theorem traj_ne (u d0 S v t : ℚ) (hu : u = 1 ∨ u = -1) (hS : S < d0)
    (ht : t = v + u * d0) : v + u * S ≠ t := by
  rcases hu with rfl | rfl <;> rw [ht] <;> intro hEq <;> linarith [hEq]

theorem bar_top_traj (cfg : BarCfg) (hfps : 0 < cfg.fps) (httu : 0 < cfg.ttu)
    (lo0 v gl t u d0 : ℚ) (f0 : ℤ)
    (hd0 : 0 < d0) (hu : u = 1 ∨ u = -1) (ht : t = v + u * d0)
    (j : ℕ) (hj : ∀ i : ℕ, i ≤ j → Ssum cfg i < d0) :
    (cycleB cfg)^[j] ⟨lo0, v, some ⟨gl, t, false⟩, f0, f0⟩ =
      ⟨lo0, v + u * Ssum cfg j, some ⟨gl, t, false⟩, f0, f0 + (j : ℤ)⟩ := by
  induction j with
  | zero => simp [Ssum_zero]
  | succ j ih =>
    have hj' : ∀ i, i ≤ j → Ssum cfg i < d0 := fun i hi => hj i (Nat.le_succ_of_le hi)
    rw [Function.iterate_succ_apply', ih hj']
    have hne : v + u * Ssum cfg j ≠ t := traj_ne u d0 _ v t hu (hj j (Nat.le_succ j)) ht
    rw [cycleB_active_top cfg hfps lo0 _ gl t f0 j hne]
    have hstep : (0:ℚ) < cfg.ttu / cfg.fps * ((j:ℚ) + 1) := by
      apply mul_pos (div_pos httu hfps)
      positivity
    have hnl : Ssum cfg j + cfg.ttu / cfg.fps * ((j:ℚ) + 1) < d0 := by
      have h1 := hj (j + 1) le_rfl
      rwa [Ssum_succ] at h1
    have hmv : moveToward (v + u * Ssum cfg j) t (cfg.ttu / cfg.fps * ((j:ℚ) + 1))
        = v + u * Ssum cfg (j + 1) := by
      rw [Ssum_succ]
      exact moveToward_no_land v t u d0 _ _ hu ht hd0 hstep hnl
    rw [hmv]

theorem bar_top_land (cfg : BarCfg) (hfps : 0 < cfg.fps) (httu : 0 < cfg.ttu)
    (lo0 v gl t u d0 : ℚ) (f0 : ℤ)
    (hd0 : 0 < d0) (hu : u = 1 ∨ u = -1) (ht : t = v + u * d0)
    (N : ℕ) (hN1 : d0 ≤ Ssum cfg N) (hN2 : ∀ j, j < N → Ssum cfg j < d0) :
    (cycleB cfg)^[N] ⟨lo0, v, some ⟨gl, t, false⟩, f0, f0⟩ =
      ⟨lo0, t, some ⟨gl, t, false⟩, f0, f0 + (N : ℤ)⟩ := by
  obtain ⟨M, rfl⟩ : ∃ M, N = M + 1 := by
    cases N with
    | zero =>
      exfalso
      rw [Ssum_zero] at hN1
      linarith
    | succ M => exact ⟨M, rfl⟩
  rw [Function.iterate_succ_apply',
      bar_top_traj cfg hfps httu lo0 v gl t u d0 f0 hd0 hu ht M (fun i hi => hN2 i (by omega))]
  have hne : v + u * Ssum cfg M ≠ t := traj_ne u d0 _ v t hu (hN2 M (by omega)) ht
  rw [cycleB_active_top cfg hfps lo0 _ gl t f0 M hne]
  have hstep : (0:ℚ) < cfg.ttu / cfg.fps * ((M:ℚ) + 1) := by
    apply mul_pos (div_pos httu hfps)
    positivity
  have hland : d0 ≤ Ssum cfg M + cfg.ttu / cfg.fps * ((M:ℚ) + 1) := by
    rwa [Ssum_succ] at hN1
  have hmv : moveToward (v + u * Ssum cfg M) t (cfg.ttu / cfg.fps * ((M:ℚ) + 1)) = t :=
    moveToward_land v t u d0 _ _ hu ht hd0 (hN2 M (by omega)) hstep hland
  rw [hmv]

theorem Ssum_nonneg (cfg : BarCfg) (hfps : 0 < cfg.fps) (httu : 0 ≤ cfg.ttu) (k : ℕ) :
    0 ≤ Ssum cfg k := by
  unfold Ssum
  apply div_nonneg _ (by norm_num)
  exact mul_nonneg (mul_nonneg (div_nonneg httu hfps.le) (Nat.cast_nonneg k)) (by positivity)

theorem bar_top_after (cfg : BarCfg) (hfps : 0 < cfg.fps) (httu : 0 < cfg.ttu)
    (lo0 v gl t u d0 : ℚ) (f0 : ℤ)
    (hd0 : 0 < d0) (hu : u = 1 ∨ u = -1) (ht : t = v + u * d0)
    (N : ℕ) (hN1 : d0 ≤ Ssum cfg N) (hN2 : ∀ j, j < N → Ssum cfg j < d0) (k : ℕ) :
    (cycleB cfg)^[N + 1 + k] ⟨lo0, v, some ⟨gl, t, false⟩, f0, f0⟩ =
      ⟨lo0, t, none, f0, f0 + (N : ℤ) + 1 + (k : ℤ)⟩ := by
  have hadd : N + 1 + k = (k + 1) + N := by omega
  rw [hadd, Function.iterate_add_apply,
      bar_top_land cfg hfps httu lo0 v gl t u d0 f0 hd0 hu ht N hN1 hN2,
      Function.iterate_succ_apply,
      cycleB_pop cfg _ ⟨gl, t, false⟩ rfl (by simp)]
  show (cycleB cfg)^[k] (⟨lo0, t, none, f0, f0 + (N : ℤ) + 1⟩ : BarSt) = _
  rw [cycleB_idle_iter]

theorem bar_top_summary (cfg : BarCfg) (hfps : 0 < cfg.fps) (httu : 0 < cfg.ttu)
    (lo0 v gl t u d0 : ℚ) (f0 : ℤ)
    (hd0 : 0 < d0) (hu : u = 1 ∨ u = -1) (ht : t = v + u * d0)
    (N : ℕ) (hN1 : d0 ≤ Ssum cfg N) (hN2 : ∀ j, j < N → Ssum cfg j < d0) :
    ((cycleB cfg)^[N] ⟨lo0, v, some ⟨gl, t, false⟩, f0, f0⟩).high = t ∧
    (∀ j, j < N → ((cycleB cfg)^[j] ⟨lo0, v, some ⟨gl, t, false⟩, f0, f0⟩).high ≠ t) ∧
    (∀ j, min v t ≤ ((cycleB cfg)^[j] ⟨lo0, v, some ⟨gl, t, false⟩, f0, f0⟩).high ∧
          ((cycleB cfg)^[j] ⟨lo0, v, some ⟨gl, t, false⟩, f0, f0⟩).high ≤ max v t) ∧
    (∀ m, N ≤ m → ((cycleB cfg)^[m] ⟨lo0, v, some ⟨gl, t, false⟩, f0, f0⟩).high = t) ∧
    ((cycleB cfg)^[N + 1] ⟨lo0, v, some ⟨gl, t, false⟩, f0, f0⟩).goal = none := by
  have hland := bar_top_land cfg hfps httu lo0 v gl t u d0 f0 hd0 hu ht N hN1 hN2
  have hallm : ∀ m, N ≤ m →
      ((cycleB cfg)^[m] ⟨lo0, v, some ⟨gl, t, false⟩, f0, f0⟩).high = t := by
    intro m hm
    rcases Nat.eq_or_lt_of_le hm with rfl | hlt
    · rw [hland]
    · obtain ⟨k, rfl⟩ : ∃ k, m = N + 1 + k := ⟨m - N - 1, by omega⟩
      rw [bar_top_after cfg hfps httu lo0 v gl t u d0 f0 hd0 hu ht N hN1 hN2 k]
  refine ⟨by rw [hland], ?_, ?_, hallm, ?_⟩
  · intro j hj
    rw [bar_top_traj cfg hfps httu lo0 v gl t u d0 f0 hd0 hu ht j
        (fun i hi => hN2 i (by omega))]
    exact traj_ne u d0 _ v t hu (hN2 j hj) ht
  · intro j
    by_cases hj : j < N
    · rw [bar_top_traj cfg hfps httu lo0 v gl t u d0 f0 hd0 hu ht j
          (fun i hi => hN2 i (by omega))]
      dsimp only
      have hSn : 0 ≤ Ssum cfg j := Ssum_nonneg cfg hfps httu.le j
      have hSd : Ssum cfg j < d0 := hN2 j hj
      rcases hu with rfl | rfl
      · have h2 : v + 1 * Ssum cfg j ≤ t := by rw [ht]; linarith
        exact ⟨le_trans (min_le_left v t) (by linarith),
               le_trans h2 (le_max_right v t)⟩
      · have h2 : t ≤ v + -1 * Ssum cfg j := by rw [ht]; linarith
        exact ⟨le_trans (min_le_right v t) h2,
               le_trans (by linarith : v + -1 * Ssum cfg j ≤ v) (le_max_left v t)⟩
    · rw [hallm j (by omega)]
      exact ⟨min_le_right v t, le_max_right v t⟩
  · have h1 := bar_top_after cfg hfps httu lo0 v gl t u d0 f0 hd0 hu ht N hN1 hN2 0
    rw [show N + 1 + 0 = N + 1 by omega] at h1
    rw [h1]

theorem cycleB_active_bottom (cfg : BarCfg) (hfps : 0 < cfg.fps) (x hi0 gh t : ℚ)
    (f0 : ℤ) (j : ℕ) (hne : hi0 ≠ t) :
    cycleB cfg ⟨x, hi0, some ⟨t, gh, true⟩, f0, f0 + (j : ℤ)⟩ =
      ⟨moveToward x t (cfg.ttu / cfg.fps * ((j : ℚ) + 1)), hi0, some ⟨t, gh, true⟩, f0,
        f0 + ((j : ℕ) + 1 : ℕ)⟩ := by
  have hss : ((f0 + (j : ℤ) + 1 - f0 : ℤ) : ℚ) / cfg.fps * cfg.ttu
      = cfg.ttu / cfg.fps * ((j : ℚ) + 1) := by
    push_cast
    field_simp
    ring
  unfold cycleB tickB process_bar_movement
  simp only [Bool.true_eq_false, if_false, if_neg hne]
  simp only [BarSt.mk.injEq, true_and, and_true]
  refine ⟨?_, ?_⟩
  · rw [hss]
  · push_cast
    ring

theorem bar_bottom_traj (cfg : BarCfg) (hfps : 0 < cfg.fps) (httu : 0 < cfg.ttu)
    (v hi0 gh t u d0 : ℚ) (f0 : ℤ)
    (hd0 : 0 < d0) (hu : u = 1 ∨ u = -1) (ht : t = v + u * d0) (hne : hi0 ≠ t)
    (j : ℕ) (hj : ∀ i : ℕ, i ≤ j → Ssum cfg i < d0) :
    (cycleB cfg)^[j] ⟨v, hi0, some ⟨t, gh, true⟩, f0, f0⟩ =
      ⟨v + u * Ssum cfg j, hi0, some ⟨t, gh, true⟩, f0, f0 + (j : ℤ)⟩ := by
  induction j with
  | zero => simp [Ssum_zero]
  | succ j ih =>
    have hj' : ∀ i, i ≤ j → Ssum cfg i < d0 := fun i hi => hj i (Nat.le_succ_of_le hi)
    rw [Function.iterate_succ_apply', ih hj']
    rw [cycleB_active_bottom cfg hfps _ hi0 gh t f0 j hne]
    have hstep : (0:ℚ) < cfg.ttu / cfg.fps * ((j:ℚ) + 1) := by
      apply mul_pos (div_pos httu hfps)
      positivity
    have hnl : Ssum cfg j + cfg.ttu / cfg.fps * ((j:ℚ) + 1) < d0 := by
      have h1 := hj (j + 1) le_rfl
      rwa [Ssum_succ] at h1
    have hmv : moveToward (v + u * Ssum cfg j) t (cfg.ttu / cfg.fps * ((j:ℚ) + 1))
        = v + u * Ssum cfg (j + 1) := by
      rw [Ssum_succ]
      exact moveToward_no_land v t u d0 _ _ hu ht hd0 hstep hnl
    rw [hmv]

theorem bar_bottom_land (cfg : BarCfg) (hfps : 0 < cfg.fps) (httu : 0 < cfg.ttu)
    (v hi0 gh t u d0 : ℚ) (f0 : ℤ)
    (hd0 : 0 < d0) (hu : u = 1 ∨ u = -1) (ht : t = v + u * d0) (hne : hi0 ≠ t)
    (N : ℕ) (hN1 : d0 ≤ Ssum cfg N) (hN2 : ∀ j, j < N → Ssum cfg j < d0) :
    (cycleB cfg)^[N] ⟨v, hi0, some ⟨t, gh, true⟩, f0, f0⟩ =
      ⟨t, hi0, some ⟨t, gh, true⟩, f0, f0 + (N : ℤ)⟩ := by
  obtain ⟨M, rfl⟩ : ∃ M, N = M + 1 := by
    cases N with
    | zero =>
      exfalso
      rw [Ssum_zero] at hN1
      linarith
    | succ M => exact ⟨M, rfl⟩
  rw [Function.iterate_succ_apply',
      bar_bottom_traj cfg hfps httu v hi0 gh t u d0 f0 hd0 hu ht hne M
        (fun i hi => hN2 i (by omega))]
  rw [cycleB_active_bottom cfg hfps _ hi0 gh t f0 M hne]
  have hstep : (0:ℚ) < cfg.ttu / cfg.fps * ((M:ℚ) + 1) := by
    apply mul_pos (div_pos httu hfps)
    positivity
  have hland : d0 ≤ Ssum cfg M + cfg.ttu / cfg.fps * ((M:ℚ) + 1) := by
    rwa [Ssum_succ] at hN1
  have hmv : moveToward (v + u * Ssum cfg M) t (cfg.ttu / cfg.fps * ((M:ℚ) + 1)) = t :=
    moveToward_land v t u d0 _ _ hu ht hd0 (hN2 M (by omega)) hstep hland
  rw [hmv]

theorem cycleB_bottom_landed (cfg : BarCfg) (hfps : 0 < cfg.fps) (httu : 0 ≤ cfg.ttu)
    (t hi0 gh : ℚ) (f0 : ℤ) (j : ℕ) (hne : hi0 ≠ t) :
    cycleB cfg ⟨t, hi0, some ⟨t, gh, true⟩, f0, f0 + (j : ℤ)⟩ =
      ⟨t, hi0, some ⟨t, gh, true⟩, f0, f0 + ((j : ℕ) + 1 : ℕ)⟩ := by
  rw [cycleB_active_bottom cfg hfps t hi0 gh t f0 j hne]
  have hss : (0:ℚ) ≤ cfg.ttu / cfg.fps * ((j:ℚ) + 1) := by
    apply mul_nonneg (div_nonneg httu hfps.le)
    positivity
  rw [moveToward_self hss]

theorem bar_bottom_after (cfg : BarCfg) (hfps : 0 < cfg.fps) (httu : 0 < cfg.ttu)
    (v hi0 gh t u d0 : ℚ) (f0 : ℤ)
    (hd0 : 0 < d0) (hu : u = 1 ∨ u = -1) (ht : t = v + u * d0) (hne : hi0 ≠ t)
    (N : ℕ) (hN1 : d0 ≤ Ssum cfg N) (hN2 : ∀ j, j < N → Ssum cfg j < d0) (k : ℕ) :
    (cycleB cfg)^[N + k] ⟨v, hi0, some ⟨t, gh, true⟩, f0, f0⟩ =
      ⟨t, hi0, some ⟨t, gh, true⟩, f0, f0 + ((N + k : ℕ) : ℤ)⟩ := by
  induction k with
  | zero =>
    rw [Nat.add_zero, bar_bottom_land cfg hfps httu v hi0 gh t u d0 f0 hd0 hu ht hne N hN1 hN2]
  | succ k ih =>
    rw [show N + (k + 1) = (N + k) + 1 by omega, Function.iterate_succ_apply', ih,
        cycleB_bottom_landed cfg hfps httu.le t hi0 gh f0 (N + k) hne]

theorem bar_bottom_degenerate (cfg : BarCfg) (v hi0 gh : ℚ) (f0 f : ℤ) (m : ℕ)
    (hm : 1 ≤ m) :
    (cycleB cfg)^[m] ⟨v, hi0, some ⟨hi0, gh, true⟩, f0, f⟩ = ⟨v, hi0, none, f0, f + m⟩ := by
  obtain ⟨k, rfl⟩ : ∃ k, m = k + 1 := ⟨m - 1, by omega⟩
  rw [Function.iterate_succ_apply, cycleB_pop cfg _ ⟨hi0, gh, true⟩ rfl (by simp)]
  show (cycleB cfg)^[k] (⟨v, hi0, none, f0, f + 1⟩ : BarSt) = _
  rw [cycleB_idle_iter]
  simp only [BarSt.mk.injEq, true_and]
  push_cast
  ring

theorem bar_bottom_summary (cfg : BarCfg) (hfps : 0 < cfg.fps) (httu : 0 < cfg.ttu)
    (v hi0 gh t u d0 : ℚ) (f0 : ℤ)
    (hd0 : 0 < d0) (hu : u = 1 ∨ u = -1) (ht : t = v + u * d0) (hne : hi0 ≠ t)
    (N : ℕ) (hN1 : d0 ≤ Ssum cfg N) (hN2 : ∀ j, j < N → Ssum cfg j < d0) :
    ((cycleB cfg)^[N] ⟨v, hi0, some ⟨t, gh, true⟩, f0, f0⟩).low = t ∧
    (∀ j, j < N → ((cycleB cfg)^[j] ⟨v, hi0, some ⟨t, gh, true⟩, f0, f0⟩).low ≠ t) ∧
    (∀ m, N ≤ m → ((cycleB cfg)^[m] ⟨v, hi0, some ⟨t, gh, true⟩, f0, f0⟩).low = t ∧
        ((cycleB cfg)^[m] ⟨v, hi0, some ⟨t, gh, true⟩, f0, f0⟩).goal = some ⟨t, gh, true⟩) := by
  have hallm : ∀ m, N ≤ m →
      ((cycleB cfg)^[m] ⟨v, hi0, some ⟨t, gh, true⟩, f0, f0⟩).low = t ∧
      ((cycleB cfg)^[m] ⟨v, hi0, some ⟨t, gh, true⟩, f0, f0⟩).goal = some ⟨t, gh, true⟩ := by
    intro m hm
    obtain ⟨k, rfl⟩ : ∃ k, m = N + k := ⟨m - N, by omega⟩
    rw [bar_bottom_after cfg hfps httu v hi0 gh t u d0 f0 hd0 hu ht hne N hN1 hN2 k]
    exact ⟨rfl, rfl⟩
  refine ⟨(hallm N le_rfl).1, ?_, hallm⟩
  intro j hj
  rw [bar_bottom_traj cfg hfps httu v hi0 gh t u d0 f0 hd0 hu ht hne j
      (fun i hi => hN2 i (by omega))]
  dsimp only
  exact traj_ne u d0 _ v t hu (hN2 j hj) ht

theorem dir_decomp (v t : ℚ) (h : v ≠ t) :
    ∃ u d0 : ℚ, (u = 1 ∨ u = -1) ∧ 0 < d0 ∧ d0 = |v - t| ∧ t = v + u * d0 := by
  by_cases hlt : v < t
  · refine ⟨1, |v - t|, Or.inl rfl, abs_pos.mpr (sub_ne_zero.mpr h), rfl, ?_⟩
    rw [abs_of_neg (by linarith : v - t < 0)]
    ring
  · refine ⟨-1, |v - t|, Or.inr rfl, abs_pos.mpr (sub_ne_zero.mpr h), rfl, ?_⟩
    have hgt : t < v := lt_of_le_of_ne (not_lt.mp hlt) (Ne.symm h)
    rw [abs_of_nonneg (by linarith : (0:ℚ) ≤ v - t)]
    ring

/-- C1 (amended): for a `Bar` that is the only constructed instance, every
interleaving of `set_value` / `modify_value` calls, `process_bar_movement`
steps and frame ticks keeps each committed edge (`display_range[0]` and
`display_range[1]`) individually within `value_range`, provided the bar
starts in a well-formed state. The full claimed invariant
`display_range[0] ≤ display_range[1]` does not hold on the code (see the
counterexample): each component is clamped, but their order is never
enforced. -/
theorem C1_components_stay_in_range (cfg : BarCfg) (hlh : cfg.lo ≤ cfg.hi)
    (hfps : 0 < cfg.fps) (httu : 0 ≤ cfg.ttu) (s : BarSt) (h : BarInv cfg s)
    (ops : List BarOp) :
    cfg.lo ≤ (runBarOps cfg ops s).low ∧ (runBarOps cfg ops s).low ≤ cfg.hi ∧
    cfg.lo ≤ (runBarOps cfg ops s).high ∧ (runBarOps cfg ops s).high ≤ cfg.hi := by
  obtain ⟨h1, h2, h3, h4, _, _⟩ := barInv_run cfg hlh hfps httu ops s h
  exact ⟨h1, h2, h3, h4⟩

/-- C1 witness: the component bounds hold concretely for the C1 scenario. -/
theorem C1_witness :
    cfgC1.lo ≤ (runBarOps cfgC1 opsC1 sC1).low ∧
    (runBarOps cfgC1 opsC1 sC1).low ≤ cfgC1.hi ∧
    cfgC1.lo ≤ (runBarOps cfgC1 opsC1 sC1).high ∧
    (runBarOps cfgC1 opsC1 sC1).high ≤ cfgC1.hi :=
  C1_components_stay_in_range cfgC1 (by norm_num [cfgC1]) (by norm_num [cfgC1])
    (by norm_num [cfgC1]) sC1
    ⟨by norm_num [cfgC1, sC1], by norm_num [cfgC1, sC1], by norm_num [cfgC1, sC1],
     by norm_num [cfgC1, sC1], by intro g hg; simp [sC1] at hg, by norm_num [sC1]⟩
    opsC1

/-- C1 counterexample: on a bar with `value_range (0, 100)` and
`display_range [0, 100]`, `set_value(30, instant, top)` followed by
`set_value(50, instant, bottom)` leaves `display_range = [50, 30]`, so the
claimed invariant `display_range[0] ≤ display_range[1]` is violated. -/
theorem C1_counterexample :
    ¬ ((runBarOps cfgC1 opsC1 sC1).low ≤ (runBarOps cfgC1 opsC1 sC1).high) := by
  norm_num [runBarOps, opsC1, applyBarOp, set_value, clampQ, cfgC1, sC1]

/-- C2 (amended): an instant `set_value` commits the clamped target within
the same call. A non-instant top-edge target is reached exactly after `N`
`process_bar_movement` steps (one per frame), where `N` is the least `k`
with `|committed - target| ≤ Ssum cfg k` — the step at elapsed frame `j` has
magnitude `j * time_to_use / display_fps`, so the travelled distance after
`k` frames is `Ssum cfg k`, not a linear ramp, and `N` is not
`ceil(duration_in_frames)` (see the counterexample). The last step lands
exactly on the target, intermediate steps never overshoot, the value stays
at the target afterwards and the goal entry is popped on the following
step. A bottom-edge target is reached after the same `N` steps provided the
committed top value differs from the bottom target, but the goal entry is
then never cleared (completion compares the top edge); if instead the
committed top value equals the bottom target, the entry is dropped on the
first step and the bottom edge never moves. -/
theorem C2_stepper_landing :
    (∀ (cfg : BarCfg) (s : BarSt) (v : ℚ),
        (set_value cfg v true false s).high = clampQ cfg v ∧
        (set_value cfg v true true s).low = clampQ cfg v) ∧
    (∀ (cfg : BarCfg) (lo0 v gl t : ℚ) (f0 : ℤ) (N : ℕ),
        0 < cfg.fps → 0 < cfg.ttu → v ≠ t →
        |v - t| ≤ Ssum cfg N → (∀ j, j < N → Ssum cfg j < |v - t|) →
        ((cycleB cfg)^[N] ⟨lo0, v, some ⟨gl, t, false⟩, f0, f0⟩).high = t ∧
        (∀ j, j < N → ((cycleB cfg)^[j] ⟨lo0, v, some ⟨gl, t, false⟩, f0, f0⟩).high ≠ t) ∧
        (∀ j, min v t ≤ ((cycleB cfg)^[j] ⟨lo0, v, some ⟨gl, t, false⟩, f0, f0⟩).high ∧
              ((cycleB cfg)^[j] ⟨lo0, v, some ⟨gl, t, false⟩, f0, f0⟩).high ≤ max v t) ∧
        (∀ m, N ≤ m → ((cycleB cfg)^[m] ⟨lo0, v, some ⟨gl, t, false⟩, f0, f0⟩).high = t) ∧
        ((cycleB cfg)^[N + 1] ⟨lo0, v, some ⟨gl, t, false⟩, f0, f0⟩).goal = none) ∧
    (∀ (cfg : BarCfg) (hi0 v gh t : ℚ) (f0 : ℤ) (N : ℕ),
        0 < cfg.fps → 0 < cfg.ttu → v ≠ t → hi0 ≠ t →
        |v - t| ≤ Ssum cfg N → (∀ j, j < N → Ssum cfg j < |v - t|) →
        ((cycleB cfg)^[N] ⟨v, hi0, some ⟨t, gh, true⟩, f0, f0⟩).low = t ∧
        (∀ j, j < N → ((cycleB cfg)^[j] ⟨v, hi0, some ⟨t, gh, true⟩, f0, f0⟩).low ≠ t) ∧
        (∀ m, N ≤ m → ((cycleB cfg)^[m] ⟨v, hi0, some ⟨t, gh, true⟩, f0, f0⟩).low = t ∧
            ((cycleB cfg)^[m] ⟨v, hi0, some ⟨t, gh, true⟩, f0, f0⟩).goal
              = some ⟨t, gh, true⟩)) ∧
    (∀ (cfg : BarCfg) (v hi0 gh : ℚ) (f0 f : ℤ) (m : ℕ), 1 ≤ m →
        ((cycleB cfg)^[m] ⟨v, hi0, some ⟨hi0, gh, true⟩, f0, f⟩).low = v ∧
        ((cycleB cfg)^[m] ⟨v, hi0, some ⟨hi0, gh, true⟩, f0, f⟩).goal = none) := by
  refine ⟨?_, ?_, ?_, ?_⟩
  · intro cfg s v
    obtain ⟨slow, shigh, sgoal, sf, sfr⟩ := s
    constructor
    · cases sgoal <;>
        (simp only [set_value, eq_self_iff_true, if_true, Bool.true_eq_false, if_false]
         split_ifs with h1
         · rfl
         · exact not_not.mp h1)
    · cases sgoal <;>
        (simp only [set_value, eq_self_iff_true, if_true, Bool.true_eq_false, if_false]
         split_ifs with h1
         · rfl
         · exact not_not.mp h1)
  · intro cfg lo0 v gl t f0 N hfps httu hvt hN1 hN2
    obtain ⟨u, d0, hu, hd0, hd0eq, ht⟩ := dir_decomp v t hvt
    simp only [← hd0eq] at hN1 hN2
    exact bar_top_summary cfg hfps httu lo0 v gl t u d0 f0 hd0 hu ht N hN1 hN2
  · intro cfg hi0 v gh t f0 N hfps httu hvt hne hN1 hN2
    obtain ⟨u, d0, hu, hd0, hd0eq, ht⟩ := dir_decomp v t hvt
    simp only [← hd0eq] at hN1 hN2
    exact bar_bottom_summary cfg hfps httu v hi0 gh t u d0 f0 hd0 hu ht hne N hN1 hN2
  · intro cfg v hi0 gh f0 f m hm
    rw [bar_bottom_degenerate cfg v hi0 gh f0 f m hm]
    exact ⟨rfl, rfl⟩

/-- C2 witness: instant set commits the clamp at once; with
`value_range (0,100)`, `time_to_use 60`, fps 60, committed top 100 and
target 90, the stepper lands exactly at step `N = 4` and stays there. -/
theorem C2_witness :
    (set_value cfgC2 95 true false sC2init).high = clampQ cfgC2 95 ∧
    ((cycleB cfgC2)^[4] ⟨0, 100, some ⟨0, 90, false⟩, 0, 0⟩).high = 90 ∧
    (∀ m, 4 ≤ m → ((cycleB cfgC2)^[m] ⟨0, 100, some ⟨0, 90, false⟩, 0, 0⟩).high = 90) ∧
    ((cycleB cfgC2)^[5] ⟨0, 100, some ⟨0, 90, false⟩, 0, 0⟩).goal = none := by
  obtain ⟨ha, hb, hc, hd, he⟩ :=
    C2_stepper_landing.2.1 cfgC2 0 100 0 90 0 4 (by norm_num [cfgC2]) (by norm_num [cfgC2])
      (by norm_num) (by norm_num [Ssum, cfgC2])
      (by intro j hj; interval_cases j <;> norm_num [Ssum, cfgC2])
  exact ⟨(C2_stepper_landing.1 cfgC2 sC2init 95).1, ha, hd, he⟩

/-- C2 counterexample: with `time_to_use = 60` clock-seconds at 60 fps the
code lands after 4 steps (and not after 3), while `ceil(duration_in_frames)`
would be 3600 (or 60 under a frames reading of `time_to_use`): the claimed
step count is wrong because the per-step magnitude grows with the elapsed
frame count instead of being a fixed fraction. -/
theorem C2_counterexample :
    ((cycleB cfgC2)^[4] sC2).high = 90 ∧ ((cycleB cfgC2)^[3] sC2).high ≠ 90 ∧
    (4 : ℕ) ≠ 3600 ∧ (4 : ℕ) ≠ 60 := by
  refine ⟨?_, ?_, by norm_num, by norm_num⟩ <;>
    norm_num [Function.iterate_succ_apply, cycleB, process_bar_movement, tickB, moveToward,
      set_value, clampQ, cfgC2, sC2, sC2init]

theorem cycleB_high_move (cfg : BarCfg) (w : BarSt) (gl t : ℚ)
    (hg : w.goal = some ⟨gl, t, false⟩) (hne : w.high ≠ t) :
    (cycleB cfg w).high
      = moveToward w.high t (((w.frame + 1 - w.startF : ℤ) : ℚ) / cfg.fps * cfg.ttu) := by
  obtain ⟨slow, shigh, sgoal, sf, sfr⟩ := w
  dsimp only at hg hne ⊢
  subst hg
  unfold cycleB tickB process_bar_movement
  simp only [eq_self_iff_true, if_true, if_neg hne]

/-- C4 (amended): a second non-instant `set_value` for the top edge issued
mid-flight replaces the pending goal with its own clamped target, and the
finished animation lands exactly on the second clamp (never the first) —
provided the second call's clamped target differs from the then-committed
top value. (If they coincide, the call is a no-op and the first goal
survives; see the counterexample.) -/
theorem C4_retarget_replaces_goal (cfg : BarCfg) (s : BarSt) (gl g1 v2 : ℚ) (N : ℕ)
    (hfps : 0 < cfg.fps) (httu : 0 < cfg.ttu)
    (hgoal : s.goal = some ⟨gl, g1, false⟩)
    (hne : s.high ≠ clampQ cfg v2)
    (hN1 : |s.high - clampQ cfg v2| ≤ Ssum cfg N)
    (hN2 : ∀ j, j < N → Ssum cfg j < |s.high - clampQ cfg v2|) :
    (set_value cfg v2 false false s).goal = some ⟨gl, clampQ cfg v2, false⟩ ∧
    ((cycleB cfg)^[N] (set_value cfg v2 false false s)).high = clampQ cfg v2 ∧
    ((cycleB cfg)^[N + 1] (set_value cfg v2 false false s)).goal = none ∧
    (g1 ≠ clampQ cfg v2 →
      ((cycleB cfg)^[N] (set_value cfg v2 false false s)).high ≠ g1) := by
  obtain ⟨slow, shigh, sgoal, sf, sfr⟩ := s
  dsimp only at hgoal hne hN1 hN2
  subst hgoal
  have hs' : set_value cfg v2 false false ⟨slow, shigh, some ⟨gl, g1, false⟩, sf, sfr⟩
      = ⟨slow, shigh, some ⟨gl, clampQ cfg v2, false⟩, sfr, sfr⟩ := by
    simp only [set_value, eq_self_iff_true, if_true, if_pos hne]
  rw [hs']
  obtain ⟨u, d0, hu, hd0, hd0eq, ht⟩ := dir_decomp shigh (clampQ cfg v2) hne
  simp only [← hd0eq] at hN1 hN2
  obtain ⟨ha, hb, hc, hd, he⟩ :=
    bar_top_summary cfg hfps httu slow shigh gl (clampQ cfg v2) u d0 sfr hd0 hu ht N hN1 hN2
  refine ⟨rfl, ha, he, fun hneq => ?_⟩
  rw [ha]
  exact fun hEq => hneq hEq.symm

/-- C4 witness: retargeting from pending goal 90 to 50 mid-flight (committed
top value 99 at frame 1) replaces the goal and lands on 50 after 10 steps. -/
theorem C4_witness :
    (set_value cfgC2 50 false false ⟨0, 99, some ⟨0, 90, false⟩, 0, 1⟩).goal
      = some ⟨0, clampQ cfgC2 50, false⟩ ∧
    ((cycleB cfgC2)^[10] (set_value cfgC2 50 false false ⟨0, 99, some ⟨0, 90, false⟩, 0, 1⟩)).high
      = clampQ cfgC2 50 := by
  obtain ⟨h1, h2, h3, h4⟩ :=
    C4_retarget_replaces_goal cfgC2 ⟨0, 99, some ⟨0, 90, false⟩, 0, 1⟩ 0 90 50 10
      (by norm_num [cfgC2]) (by norm_num [cfgC2]) rfl (by norm_num [clampQ, cfgC2])
      (by norm_num [Ssum, clampQ, cfgC2])
      (by intro j hj; interval_cases j <;> norm_num [Ssum, clampQ, cfgC2])
  exact ⟨h1, h2⟩

/-- C4 counterexample: `set_value(90)` non-instant, two animation frames
(committed top value is then 97), then `set_value(97)` non-instant — the
second call's clamped target equals the committed value, so the call is a
no-op and the animation finishes at the FIRST call's target 90, not 97. -/
theorem C4_counterexample :
    (runBarOps cfgC2 opsC4 sC2init).high = 90 ∧
    (runBarOps cfgC2 opsC4 sC2init).goal = none ∧ (90 : ℚ) ≠ 97 := by
  refine ⟨?_, ?_, by norm_num⟩ <;>
    norm_num [runBarOps, opsC4, applyBarOp, set_value, clampQ, process_bar_movement,
      tickB, moveToward, cfgC2, sC2init]

/-- C5 (amended): an instant `set_value` writes the clamped value to the
committed edge but does NOT clear the pending `moving_bars` entry — the
goal, `starting_frame` and frame are untouched — and the next
`process_bar_movement` step still moves the top edge strictly toward the
old pending goal. -/
theorem C5_instant_does_not_clear_goal :
    (∀ (cfg : BarCfg) (s : BarSt) (v : ℚ) (b : Bool),
        (set_value cfg v true b s).goal = s.goal ∧
        (set_value cfg v true b s).startF = s.startF ∧
        (set_value cfg v true b s).frame = s.frame) ∧
    (∀ (cfg : BarCfg) (s : BarSt) (gl t v : ℚ),
        0 < cfg.fps → 0 < cfg.ttu → s.startF ≤ s.frame →
        s.goal = some ⟨gl, t, false⟩ →
        (set_value cfg v true false s).high ≠ t →
        |(cycleB cfg (set_value cfg v true false s)).high - t| <
          |(set_value cfg v true false s).high - t|) := by
  have hpart1 : ∀ (cfg : BarCfg) (s : BarSt) (v : ℚ) (b : Bool),
      (set_value cfg v true b s).goal = s.goal ∧
      (set_value cfg v true b s).startF = s.startF ∧
      (set_value cfg v true b s).frame = s.frame := by
    intro cfg s v b
    obtain ⟨slow, shigh, sgoal, sf, sfr⟩ := s
    cases sgoal <;> cases b <;>
      (simp only [set_value, eq_self_iff_true, if_true, Bool.true_eq_false, if_false]
       split_ifs <;> exact ⟨rfl, rfl, rfl⟩)
  refine ⟨hpart1, ?_⟩
  intro cfg s gl t v hfps httu hsf hgoal hne
  obtain ⟨hgeq, hseq, hfeq⟩ := hpart1 cfg s v false
  have hgoal' : (set_value cfg v true false s).goal = some ⟨gl, t, false⟩ := by
    rw [hgeq, hgoal]
  rw [cycleB_high_move cfg _ gl t hgoal' hne]
  apply moveToward_closer _ hne
  rw [hseq, hfeq]
  have hpos : (0:ℚ) < ((s.frame + 1 - s.startF : ℤ) : ℚ) := by
    have h1 : (0:ℤ) < s.frame + 1 - s.startF := by omega
    exact_mod_cast h1
  exact mul_pos (div_pos hpos hfps) httu

/-- C5 witness: with pending goal 50 for the top edge, the instant
`set_value(80)` keeps the entry and the next step moves the top edge closer
to 50. -/
theorem C5_witness :
    (set_value cfgC2 80 true false ⟨0, 100, some ⟨0, 50, false⟩, 0, 0⟩).goal
        = (⟨0, 100, some ⟨0, 50, false⟩, 0, 0⟩ : BarSt).goal ∧
    |(cycleB cfgC2 (set_value cfgC2 80 true false ⟨0, 100, some ⟨0, 50, false⟩, 0, 0⟩)).high
        - 50| <
      |(set_value cfgC2 80 true false ⟨0, 100, some ⟨0, 50, false⟩, 0, 0⟩).high - 50| := by
  refine ⟨(C5_instant_does_not_clear_goal.1 cfgC2 _ 80 false).1, ?_⟩
  exact C5_instant_does_not_clear_goal.2 cfgC2 ⟨0, 100, some ⟨0, 50, false⟩, 0, 0⟩ 0 50 80
    (by norm_num [cfgC2]) (by norm_num [cfgC2]) (by norm_num) rfl
    (by norm_num [set_value, clampQ, cfgC2])

/-- C5 counterexample: `set_value(50)` non-instant then `set_value(80)`
instant on the same edge: the pending goal `[0, 50]` is NOT cleared and the
next step moves the top edge from 80 to 79, back toward the old goal — the
claim that the instant write clears the pending goal is false. -/
theorem C5_counterexample :
    (runBarOps cfgC2 opsC5 sC2init).goal = some ⟨0, 50, false⟩ ∧
    (runBarOps cfgC2 opsC5 sC2init).high = 80 ∧
    (cycleB cfgC2 (runBarOps cfgC2 opsC5 sC2init)).high = 79 := by
  refine ⟨?_, ?_, ?_⟩ <;>
    norm_num [runBarOps, opsC5, applyBarOp, set_value, clampQ, cycleB,
      process_bar_movement, tickB, moveToward, cfgC2, sC2init]

theorem trTick_loopC3 :
    trTick loopC3 = ⟨⟨0, 0, 200, 100, 0, 200, 0, 100, 2, 60, 0, true, 1, 1⟩, 1, false⟩ := by
  norm_num [trTick, loopC3, trC3, process_transition, pytrunc]

theorem trTick_stopped (L : TrLoop) (h : L.running = false) :
    trTick L = ⟨L.tr, L.frame + 1, false⟩ := by
  unfold trTick
  rw [h]
  simp

theorem trTick_stopped_iter (tr : TrSt) (f : ℤ) (k : ℕ) :
    trTick^[k] ⟨tr, f, false⟩ = ⟨tr, f + (k : ℤ), false⟩ := by
  induction k with
  | zero => simp
  | succ k ih =>
    rw [Function.iterate_succ_apply', ih, trTick_stopped _ rfl]
    refine congrArg (fun z => TrLoop.mk tr z false) ?_
    push_cast
    ring

/-- C3 (amended): the C3 transition (`base_size (0,0)`, spans `(200,100)`,
`time_to_use 2` clock-seconds, 60 fps, started at frame 0) reaches
`current_size = (200,100)` after exactly ONE `process_transition` call, not
120: `transition_fraction = delta / time_to_use * display_fps` is already 30
at the first tick, so the clamped sizes jump to full span immediately. The
completion callback fires exactly once at that first call and never again
(the transition is deregistered, so later ticks do not process it). -/
theorem C3_transition_completes_in_one_call (n : ℕ) (hn : 1 ≤ n) :
    (trTick^[n] loopC3).tr.sizeW = 200 ∧ (trTick^[n] loopC3).tr.sizeH = 100 ∧
    (trTick^[n] loopC3).tr.cbCount = 1 ∧ (trTick^[n] loopC3).running = false := by
  obtain ⟨k, rfl⟩ : ∃ k, n = k + 1 := ⟨n - 1, by omega⟩
  rw [Function.iterate_succ_apply, trTick_loopC3, trTick_stopped_iter]
  exact ⟨rfl, rfl, rfl, rfl⟩

/-- C3 witness: after 3 ticks the size is the full span, the callback has
fired exactly once and the transition is deregistered. -/
theorem C3_witness :
    (trTick^[3] loopC3).tr.sizeW = 200 ∧ (trTick^[3] loopC3).tr.sizeH = 100 ∧
    (trTick^[3] loopC3).tr.cbCount = 1 ∧ (trTick^[3] loopC3).running = false :=
  C3_transition_completes_in_one_call 3 (by norm_num)

/-- C3 counterexample: `current_size` equals `(200,100)` and the callback has
already fired after the FIRST `process_transition` call, not at the 120th
call as claimed. -/
theorem C3_counterexample :
    (trTick loopC3).tr.sizeW = 200 ∧ (trTick loopC3).tr.sizeH = 100 ∧
    (trTick loopC3).tr.cbCount = 1 ∧ (1 : ℕ) ≠ 120 := by
  rw [trTick_loopC3]
  exact ⟨rfl, rfl, rfl, by norm_num⟩

/-- C6: evaluation of the code at the claimed round-trip scenario. The
claim presumes a partial execution that mutates target geometry, but one
`process_animation` call on the `MOVE{x:7,time:5}` sequencer raises
`NameError` (the bare name `Action` at the `Action.execute` call site is
unresolvable from method scope), so no sequencer-driven execution ever
mutates geometry. Independently, `reset()` restores `action_index`,
`object_index`, the frame bookkeeping and the registry flag, and sets
`animation_objects` to the shallowly captured reference list — the heap of
target objects is left exactly as it is, so geometry would not be restored
even if actions did run. -/
theorem C6_code_behavior :
    process_animation 2 oaC6 = .error .nameError ∧
    (∀ s : OASt, (oa_reset s).heap = s.heap ∧ (oa_reset s).actionIndex = 0 ∧
      (oa_reset s).objectIndex = 0 ∧ (oa_reset s).objs = s.startObjs ∧
      (oa_reset s).running = false) :=
  ⟨rfl, fun s => ⟨rfl, rfl, rfl, rfl, rfl⟩⟩

/-- C7 (amended): one `process_animation` call on an `ActionSequencer` with
an empty `actions` list raises `IndexError` — the lookup
`action_sequence[action_index]` is executed before any terminal check — so
the call is not a graceful deregister-and-return. -/
theorem C7_empty_actions_raise (fuel : ℕ) (s : OASt) (h : s.seq = []) :
    process_animation (fuel + 1) s = .error .indexError := by
  unfold process_animation
  rw [h]
  rfl

/-- C7 witness: a direct application on an empty-action sequencer in an
arbitrary bookkeeping state. -/
theorem C7_witness :
    process_animation 3 ⟨[], [5], [5], [], 2, 0, 0, 0, false, 7⟩ = .error .indexError :=
  C7_empty_actions_raise 2 _ rfl

/-- C7 counterexample: the first advance on the registered empty-list
sequencer raises instead of deregistering without error. -/
theorem C7_counterexample : process_animation 2 oaC7 = .error .indexError := rfl

theorem fanOutTrAux_step (fuel i : ℕ) (sys : TrSys) (h : i < sys.registry.length) :
    fanOutTrAux (fuel + 1) i sys
      = fanOutTrAux fuel (i + 1) (processIdxTr (sys.registry.get ⟨i, h⟩) sys) := by
  unfold fanOutTrAux
  rw [dif_pos h]
  cases fuel <;> rfl

theorem fanOutTrAux_stop (fuel i : ℕ) (sys : TrSys) (h : ¬ i < sys.registry.length) :
    fanOutTrAux fuel i sys = sys := by
  cases fuel with
  | zero => rfl
  | succ fuel =>
    unfold fanOutTrAux
    rw [dif_neg h]

/-- C8 (amended): `ObjectAnimation.start` has set semantics — a second start
in the same registry state is a no-op — but `Transition.start_transition`
appends unconditionally, so a second start makes the transition appear twice
in `running_animations` and `process_running_transitions` then advances it
once per occurrence within a single tick (`procCount` reaches 2). -/
theorem C8_duplicate_start :
    (∀ (i : ℕ) (l : List ℕ), oaStartReg i (oaStartReg i l) = oaStartReg i l) ∧
    (∀ (i : ℕ) (sys : TrSys) (t : TrSt), sys.states.get? i = some t →
      (start_transition i sys).registry = sys.registry ++ [i]) ∧
    (start_transition 0 (start_transition 0 trSysC8)).registry.count 0 = 2 ∧
    ((process_running_transitions
        (start_transition 0 (start_transition 0 trSysC8))).states.get? 0).map
      TrSt.procCount = some 2 := by
  refine ⟨?_, ?_, ?_, ?_⟩
  · intro i l
    by_cases h : i ∈ l
    · simp [oaStartReg, h]
    · simp [oaStartReg, h]
  · intro i sys t h
    simp only [start_transition, h]
  · rfl
  · norm_num [process_running_transitions, fanOutTrAux, processIdxTr, process_transition,
      pytrunc, start_transition, trSysC8, trC8, List.get]

theorem processBarSys_length (j : ℕ) (sys : BarSys) :
    (process_bar_movement_sys j sys).bars.length = sys.bars.length := by
  unfold process_bar_movement_sys
  split
  · rfl
  · dsimp only
    split
    · simp
    · split_ifs <;> simp

theorem processBarSys_get_ne (j k : ℕ) (sys : BarSys) (hne : j ≠ k) :
    (process_bar_movement_sys j sys).bars.get? k = sys.bars.get? k := by
  unfold process_bar_movement_sys
  split
  · rfl
  · dsimp only
    split
    · simp [List.getElem?_set_ne, hne]
    · split_ifs <;> simp [List.getElem?_set_ne, hne]

theorem processBarSys_proc_self (j : ℕ) (sys : BarSys) (c : ℕ) :
    ((process_bar_movement_sys j sys).bars.get? j).map (fun b => b.procCount + c)
      = (sys.bars.get? j).map (fun b => b.procCount + 1 + c) := by
  unfold process_bar_movement_sys
  split
  · rename_i heq
    rw [heq]
    rfl
  · rename_i b0 heq
    obtain ⟨hlt, -⟩ := List.get?_eq_some.mp heq
    have hset : ∀ b' : BarObj, (sys.bars.set j b').get? j = some b' := fun b' =>
      List.get?_set_eq_of_lt b' hlt
    dsimp only
    split
    · rw [hset, heq]
      rfl
    · split_ifs <;> (rw [hset, heq]; rfl)

theorem barFold_count (ks : List ℕ) : ∀ (sys : BarSys) (k : ℕ),
    ((ks.foldl (fun s j => process_bar_movement_sys j s) sys).bars.get? k).map
        BarObj.procCount
      = (sys.bars.get? k).map (fun b => b.procCount + ks.count k) := by
  induction ks with
  | nil =>
    intro sys k
    simp
  | cons j ks ih =>
    intro sys k
    rw [List.foldl_cons, ih]
    by_cases hjk : j = k
    · subst hjk
      have h1 := processBarSys_proc_self j sys (ks.count j)
      rw [show (fun b : BarObj => b.procCount + ks.count j) =
            (fun b : BarObj => BarObj.procCount b + ks.count j) from rfl] at h1 ⊢
      rw [h1]
      have hc : (j :: ks).count j = ks.count j + 1 := by
        simp [List.count_cons]
      rw [hc]
      cases sys.bars.get? j <;> simp [Nat.add_assoc, Nat.add_comm 1]
    · rw [processBarSys_get_ne j k sys hjk]
      have hc : (j :: ks).count k = ks.count k := by
        simp [List.count_cons, Ne.symm hjk]
      rw [hc]

theorem processIdxTr_get_ne (a b : ℕ) (sys : TrSys) (h : a ≠ b) :
    (processIdxTr a sys).states.get? b = sys.states.get? b := by
  unfold processIdxTr
  split
  · rfl
  · simp [List.getElem?_set_ne, h]

theorem fanOutTrAux_step' (fuel i : ℕ) (sys : TrSys) (x : ℕ)
    (h : sys.registry.get? i = some x) :
    fanOutTrAux (fuel + 1) i sys = fanOutTrAux fuel (i + 1) (processIdxTr x sys) := by
  obtain ⟨hlt, hget⟩ := List.get?_eq_some.mp h
  unfold fanOutTrAux
  rw [dif_pos hlt, hget]
  cases fuel <;> rfl

/-- C9 (amended): `Bar.process_all_bar_movement` snapshots the pending keys
before dispatching, so each bar `save_bars[k]` is advanced exactly as many
times as `k` occurs in the snapshot — with dict keys, exactly once per
pending key, and bars of non-pending keys are untouched.
`Transition.process_running_transitions` however iterates the LIVE list: if
the registry is `[a, b]` and processing `a` removes it (completion), the
iterator's next index (1) now points past the shrunk list and `b` is
skipped that tick — `b`'s state (including its process count) is untouched
even though `b` was an active-set member at the start of the call. -/
theorem C9_fanout_snapshot_vs_live :
    (∀ (sys : BarSys) (k : ℕ),
        ((process_all_bar_movement sys).bars.get? k).map BarObj.procCount
          = (sys.bars.get? k).map
              (fun b => b.procCount + (sys.movingBars.map Prod.fst).count k)) ∧
    (∀ (sys : TrSys) (a b : ℕ), sys.registry = [a, b] → a ≠ b →
        (processIdxTr a sys).registry = [b] →
        (process_running_transitions sys).states.get? b = sys.states.get? b ∧
        b ∈ (process_running_transitions sys).registry) := by
  constructor
  · intro sys k
    exact barFold_count (sys.movingBars.map Prod.fst) sys k
  · intro sys a b hreg hab hrem
    have hlen : sys.registry.length = 2 := by rw [hreg]; rfl
    have h0 : sys.registry.get? 0 = some a := by rw [hreg]; rfl
    have hres : process_running_transitions sys = processIdxTr a sys := by
      unfold process_running_transitions
      rw [hlen, fanOutTrAux_step' 1 0 sys a h0,
          fanOutTrAux_stop 1 1 _ (by rw [hrem]; norm_num)]
    rw [hres, hrem]
    exact ⟨processIdxTr_get_ne a b sys hab, by norm_num⟩

/-- C9 witness: the bar fan-out advances the single pending bar id exactly
once on the concrete two-bar system, and the transition fan-out skips the
second of two simultaneously completing transitions. -/
theorem C9_witness :
    ((process_all_bar_movement wsysC10).bars.get? 0).map BarObj.procCount
      = (wsysC10.bars.get? 0).map
          (fun b => b.procCount + (wsysC10.movingBars.map Prod.fst).count 0) ∧
    (process_running_transitions trSysC9).states.get? 1 = trSysC9.states.get? 1 ∧
    1 ∈ (process_running_transitions trSysC9).registry := by
  refine ⟨C9_fanout_snapshot_vs_live.1 wsysC10 0, ?_⟩
  refine C9_fanout_snapshot_vs_live.2 trSysC9 0 1 rfl (by norm_num) ?_
  norm_num [processIdxTr, process_transition, pytrunc, trSysC9, trC9a, trC9b, List.erase]

/-- C9 counterexample: with two completion-ready transitions registered as
`[0, 1]`, one fan-out call advances transition 0 (which deregisters itself)
and never calls transition 1 — its process count stays 0 and it is still
registered — refuting "every member of the active set at the start of the
call is advanced exactly once". -/
theorem C9_counterexample :
    1 ∈ trSysC9.registry ∧
    ((process_running_transitions trSysC9).states.get? 1).map TrSt.procCount = some 0 ∧
    1 ∈ (process_running_transitions trSysC9).registry := by
  have hrem : (processIdxTr 0 trSysC9).registry = [1] := by
    norm_num [processIdxTr, process_transition, pytrunc, trSysC9, trC9a,
      List.erase_cons_head]
  have hres : process_running_transitions trSysC9 = processIdxTr 0 trSysC9 := by
    unfold process_running_transitions
    rw [show trSysC9.registry.length = 2 from rfl, fanOutTrAux_step' 1 0 trSysC9 0 rfl,
        fanOutTrAux_stop 1 1 _ (by rw [hrem]; norm_num)]
  refine ⟨by norm_num [trSysC9], ?_, ?_⟩
  · rw [hres, processIdxTr_get_ne 0 1 trSysC9 (by norm_num)]
    rfl
  · rw [hres, hrem]
    norm_num

theorem mkBars_barId_zero (ps : List BarParams) (sys : BarSys)
    (h : ∀ b ∈ sys.bars, b.barId = 0) :
    ∀ b ∈ (mkBars ps sys).bars, b.barId = 0 := by
  induction ps generalizing sys with
  | nil => exact h
  | cons p ps ih =>
    rw [mkBars, List.foldl_cons]
    refine ih (mkBar p sys) ?_
    intro b hb
    rw [mkBar] at hb
    simp only [List.mem_append, List.mem_singleton] at hb
    rcases hb with hb | rfl
    · exact h b hb
    · rfl

theorem set_value_sys_fresh (sys : BarSys) (i : ℕ) (bi : BarObj) (v : ℚ)
    (hmv : sys.movingBars = []) (hbi : sys.bars.get? i = some bi) (hid : bi.barId = 0)
    (hne : bi.high ≠ min (max v bi.lo) bi.hi) :
    set_value_sys i v false false sys
      = { sys with
          movingBars := [(0, ⟨bi.low, min (max v bi.lo) bi.hi, false⟩)],
          bars := sys.bars.set i { bi with startF := sys.frame } } := by
  unfold set_value_sys
  rw [hbi]
  dsimp only
  rw [hmv]
  simp only [dictLookup, dictUpdate, List.find?, eq_self_iff_true, if_true,
    Option.map_none', Option.isSome_none, Bool.false_eq_true, if_false, if_neg, hne,
    ne_eq, not_false_eq_true, if_true, List.nil_append, hid]

theorem C10_helper_second_set (sys : BarSys) (i j : ℕ) (bi bj : BarObj) (v w : ℚ)
    (hmv : sys.movingBars = []) (hij : i ≠ j)
    (hbi : sys.bars.get? i = some bi) (hbj : sys.bars.get? j = some bj)
    (hidi : bi.barId = 0) (hidj : bj.barId = 0)
    (hnei : bi.high ≠ min (max v bi.lo) bi.hi)
    (hnej : bj.high ≠ min (max w bj.lo) bj.hi) :
    (set_value_sys j w false false (set_value_sys i v false false sys)).movingBars
      = [(0, ⟨bi.low, min (max w bj.lo) bj.hi, false⟩)] := by
  rw [set_value_sys_fresh sys i bi v hmv hbi hidi hnei]
  have hbj' : (sys.bars.set i { bi with startF := sys.frame }).get? j = some bj := by
    rw [List.get?_set_ne _ _ hij]
    exact hbj
  unfold set_value_sys
  rw [show ({ sys with
          movingBars := [(0, ⟨bi.low, min (max v bi.lo) bi.hi, false⟩)],
          bars := sys.bars.set i { bi with startF := sys.frame } } : BarSys).bars
        = sys.bars.set i { bi with startF := sys.frame } from rfl,
      hbj']
  dsimp only
  rw [hidj]
  simp only [dictLookup, dictUpdate, List.find?, eq_self_iff_true, if_true,
    Option.map_some', Option.isSome_some, if_neg, hnej, ne_eq, not_false_eq_true,
    if_true, List.map_cons, List.map_nil, decide_True]

theorem process_all_single_key (sys : BarSys) (g : MGoal)
    (hmv : sys.movingBars = [(0, g)]) :
    process_all_bar_movement sys = process_bar_movement_sys 0 sys := by
  unfold process_all_bar_movement
  rw [hmv]
  rfl

/-- C10: every `Bar` instance reads `_bar_id = 0` — the class attribute was
bound once, at class-definition time, to `bar_id_counter` (then 0) and is
never assigned per instance — so (1) all constructed bars carry id 0, (2) a
non-instant `set_value` on one bar and then on another both write
`moving_bars[0]`, the second overwriting the first's pending goal, and (3)
`process_all_bar_movement` with a pending entry always advances
`save_bars[0]`, the first-constructed bar, leaving every other bar
untouched. -/
theorem C10_shared_bar_id :
    (∀ ps : List BarParams, ∀ b ∈ (mkBars ps barSysEmpty).bars, b.barId = 0) ∧
    (∀ (sys : BarSys) (i j : ℕ) (bi bj : BarObj) (v w : ℚ),
        sys.movingBars = [] → i ≠ j →
        sys.bars.get? i = some bi → sys.bars.get? j = some bj →
        bi.barId = 0 → bj.barId = 0 →
        bi.high ≠ min (max v bi.lo) bi.hi → bj.high ≠ min (max w bj.lo) bj.hi →
        (set_value_sys j w false false (set_value_sys i v false false sys)).movingBars
          = [(0, ⟨bi.low, min (max w bj.lo) bj.hi, false⟩)]) ∧
    (∀ (sys : BarSys) (g : MGoal), sys.movingBars = [(0, g)] →
        ((process_all_bar_movement sys).bars.get? 0).map BarObj.procCount
          = (sys.bars.get? 0).map (fun b => b.procCount + 1) ∧
        (∀ k, k ≠ 0 → (process_all_bar_movement sys).bars.get? k = sys.bars.get? k)) := by
  refine ⟨?_, ?_, ?_⟩
  · intro ps
    exact mkBars_barId_zero ps barSysEmpty (by intro b hb; cases hb)
  · intro sys i j bi bj v w hmv hij hbi hbj hidi hidj hnei hnej
    exact C10_helper_second_set sys i j bi bj v w hmv hij hbi hbj hidi hidj hnei hnej
  · intro sys g hmv
    rw [process_all_single_key sys g hmv]
    constructor
    · have h1 := processBarSys_proc_self 0 sys 0
      cases hg : sys.bars.get? 0 with
      | none =>
        rw [hg] at h1
        simpa using h1
      | some b =>
        rw [hg] at h1
        simpa using h1
    · intro k hk
      exact processBarSys_get_ne 0 k sys (Ne.symm hk)

/-- C10 witness: the two concretely constructed bars both have id 0; a
non-instant `set_value(200)` on the first then `set_value(500)` on the
second leaves a single `moving_bars` entry at key 0 holding the second
call's goal; and the fan-out on the pending system advances `save_bars[0]`
exactly once. -/
theorem C10_witness :
    (∀ b ∈ (mkBars psC10 barSysEmpty).bars, b.barId = 0) ∧
    (set_value_sys 1 500 false false (set_value_sys 0 50 false false sysC10)).movingBars
      = [(0, ⟨0, min (max 500 (0:ℚ)) 1000, false⟩)] ∧
    ((process_all_bar_movement wsysC10).bars.get? 0).map BarObj.procCount
      = (wsysC10.bars.get? 0).map (fun b => b.procCount + 1) := by
  refine ⟨C10_shared_bar_id.1 psC10, ?_, ?_⟩
  · exact C10_shared_bar_id.2.1 sysC10 0 1 ⟨0, 0, 100, 0, 100, 3, 0, 0⟩
      ⟨0, 0, 1000, 0, 1000, 3, 0, 0⟩ 50 500 rfl (by norm_num) rfl rfl rfl rfl
      (by norm_num) (by norm_num)
  · refine (C10_shared_bar_id.2.2 wsysC10 ⟨0, 500, false⟩ ?_).1
    rfl

/-- C8 witness: a second `ObjectAnimation.start` is a registry no-op, and
`start_transition` appends the instance to the registry. -/
theorem C8_witness :
    oaStartReg 3 (oaStartReg 3 [5]) = oaStartReg 3 [5] ∧
    (start_transition 0 trSysC8).registry = trSysC8.registry ++ [0] :=
  ⟨C8_duplicate_start.1 3 [5], C8_duplicate_start.2.1 0 trSysC8 trC8 rfl⟩

/-- C8 counterexample: two `start_transition` calls on the same transition
leave it registered twice (count 2, not at most 1), and one fan-out tick
then advances it twice. -/
theorem C8_counterexample :
    ¬ ((start_transition 0 (start_transition 0 trSysC8)).registry.count 0 ≤ 1) ∧
    ((process_running_transitions
        (start_transition 0 (start_transition 0 trSysC8))).states.get? 0).map
      TrSt.procCount = some 2 := by
  constructor
  · have h : (start_transition 0 (start_transition 0 trSysC8)).registry.count 0 = 2 := rfl
    rw [h]
    norm_num
  · norm_num [process_running_transitions, fanOutTrAux, processIdxTr, process_transition,
      pytrunc, start_transition, trSysC8, trC8, List.get]
